import Mathlib

/-!
# Verification of the `analyze-workflow-dependencies` tool (Tray-MCP)

Shallow embedding of the `analyze-workflow-dependencies` tool handler of
`src/index.ts` (the workflow dependency/export analysis pass) together with
proofs of the specified properties.

Modelling conventions:
* JavaScript `Map` and `Set` preserve insertion order, so a `Map<string, T>`
  is embedded as an insertion-ordered association list `List (String × T)`
  and a `Set<string>` as an insertion-ordered duplicate-free `List String`.
* JavaScript falsy-fallback `x || d` on strings is embedded as
  `if x = "" then d else x`, with an absent field reading as `""`.
* The handler calls `new Date().toISOString()` once while rendering; the
  timestamp is made an explicit argument `now` of the report function.
* `String.startsWith` / first-occurrence `replace` of a prefix that is
  guaranteed to be present are embedded on the character-list level
  (`List.isPrefixOf` / `List.drop`), which agrees with the JavaScript
  behaviour on the strings involved.
-/

namespace TrayMCP

/-- A connector (or trigger) reference on a step: the analysis reads only
`name` and `version` (`step.connector.name`, `step.connector.version`). -/
structure ConnectorRef where
  name : String
  version : String
deriving DecidableEq, Repr

/-- An authentication reference on a step: the analysis reads only `id`
(`step.authentication.id`). -/
structure AuthRef where
  id : String
deriving DecidableEq, Repr

/-- One entry of `workflow.nestedWorkflows`. -/
structure NestedRef where
  workflowId : String
  workflowName : String
  stepId : String
deriving DecidableEq, Repr

/-- A workflow step; each dependency-bearing field is optional. -/
structure StepDef where
  connector : Option ConnectorRef := none
  trigger : Option ConnectorRef := none
  authentication : Option AuthRef := none
deriving DecidableEq, Repr

/-- A workflow of the export document. `steps` and `nestedWorkflows` are
optional collections, `description` an optional scalar. -/
structure Workflow where
  id : String
  name : String
  description : Option String := none
  enabled : Bool := true
  steps : Option (List StepDef) := none
  nestedWorkflows : Option (List NestedRef) := none
deriving DecidableEq, Repr

/-- An entry of `export.authentications`; the analysis reads `id` and `name`. -/
structure Authentication where
  id : String
  name : String
deriving DecidableEq, Repr

/-- The `project` header object; only `project.name` is read. -/
structure ProjectInfo where
  name : String
deriving DecidableEq, Repr

/-- The export document (`projectExport`).  Every collection field is
optional; `connectors` and `services` are only measured, never inspected. -/
structure ProjectExport where
  project : Option ProjectInfo := none
  workflows : Option (List Workflow) := none
  authentications : Option (List Authentication) := none
  connectors : Option (List ConnectorRef) := none
  services : Option (List String) := none
deriving DecidableEq, Repr

/-- Reader for `projectExport.workflows || []`. -/
def workflowsOf (e : ProjectExport) : List Workflow := e.workflows.getD []

/-- Reader for `projectExport.authentications || []`. -/
def authenticationsOf (e : ProjectExport) : List Authentication :=
  e.authentications.getD []

/-- Reader for `projectExport.connectors || []`. -/
def connectorsOf (e : ProjectExport) : List ConnectorRef := e.connectors.getD []

/-- Reader for `projectExport.services || []`. -/
def servicesOf (e : ProjectExport) : List String := e.services.getD []

/-- Reader for `workflow.steps` as a collection (absent reads as empty). -/
def stepsOf (w : Workflow) : List StepDef := w.steps.getD []

/-- Reader for `workflow.nestedWorkflows` as a collection (absent reads as empty). -/
def nestedOf (w : Workflow) : List NestedRef := w.nestedWorkflows.getD []

/-- JavaScript string falsy-fallback `s || d`. -/
def orFalsy (s d : String) : String := if s = "" then d else s

/-- The unprefixed connector key `${name}:${version}`. -/
def connectorKey (c : ConnectorRef) : String := c.name ++ ":" ++ c.version

/-- JavaScript `Set.add` on an insertion-ordered duplicate-free list. -/
def addDep (deps : List String) (d : String) : List String :=
  if d ∈ deps then deps else deps ++ [d]

/-- The three `step.*` branches of the step loop, restricted to the `deps`
set: connector, then trigger, then authentication. -/
def stepAddDeps (deps : List String) (s : StepDef) : List String :=
  let d1 := match s.connector with
    | some c => addDep deps ("connector:" ++ connectorKey c)
    | none => deps
  let d2 := match s.trigger with
    | some t => addDep d1 ("trigger:" ++ connectorKey t)
    | none => d1
  match s.authentication with
    | some a => addDep d2 ("auth:" ++ a.id)
    | none => d2

/-- The dependency key set computed for one workflow: the step loop followed
by the nested-workflow loop (`deps.add('workflow:' + nested.workflowName)`). -/
def workflowDeps (w : Workflow) : List String :=
  (nestedOf w).foldl (fun ds nw => addDep ds ("workflow:" ++ nw.workflowName))
    ((stepsOf w).foldl stepAddDeps [])

/-- JavaScript `if (!m.has(key)) m.set(key, new Set()); m.get(key).add(val)`
on an insertion-ordered association list of insertion-ordered sets. -/
def usageAdd (m : List (String × List String)) (key val : String) :
    List (String × List String) :=
  match m with
  | [] => [(key, [val])]
  | (k, vs) :: rest =>
    if k = key then (k, addDep vs val) :: rest else (k, vs) :: usageAdd rest key val

/-- The connector branch of the step loop, restricted to `connectorUsage`:
the map key is the unprefixed `connectorKey`. -/
def connUsageStep (wfName : String) (m : List (String × List String))
    (s : StepDef) : List (String × List String) :=
  match s.connector with
  | some c => usageAdd m (connectorKey c) wfName
  | none => m

/-- The authentication branch of the step loop, restricted to
`authenticationUsage`: the map key is the raw authentication id. -/
def authUsageStep (wfName : String) (m : List (String × List String))
    (s : StepDef) : List (String × List String) :=
  match s.authentication with
  | some a => usageAdd m a.id wfName
  | none => m

/-- One workflow's contribution to `connectorUsage`. -/
def connUsageWf (m : List (String × List String)) (w : Workflow) :
    List (String × List String) :=
  (stepsOf w).foldl (connUsageStep w.name) m

/-- One workflow's contribution to `authenticationUsage`. -/
def authUsageWf (m : List (String × List String)) (w : Workflow) :
    List (String × List String) :=
  (stepsOf w).foldl (authUsageStep w.name) m

/-- The `connectorUsage` reverse index after the workflow pass. -/
def connUsage (e : ProjectExport) : List (String × List String) :=
  (workflowsOf e).foldl connUsageWf []

/-- The `authenticationUsage` reverse index after the workflow pass. -/
def authUsage (e : ProjectExport) : List (String × List String) :=
  (workflowsOf e).foldl authUsageWf []

/-- JavaScript `Map.set` (update in place if the key exists, else append). -/
def mapSet (m : List (String × α)) (k : String) (v : α) : List (String × α) :=
  match m with
  | [] => [(k, v)]
  | (k', v') :: rest =>
    if k' = k then (k, v) :: rest else (k', v') :: mapSet rest k v

/-- JavaScript `Map.get` as an option. -/
def mapGet (m : List (String × α)) (k : String) : Option α :=
  match m with
  | [] => none
  | (k', v') :: rest => if k' = k then some v' else mapGet rest k

/-- One workflow's contribution to the nested-workflow index:
`if (workflow.nestedWorkflows && workflow.nestedWorkflows.length > 0)
   nestedWorkflows.set(workflowId, names)`. -/
def nestedIdxStep (m : List (String × List String)) (w : Workflow) :
    List (String × List String) :=
  if (nestedOf w).isEmpty then m
  else mapSet m w.id ((nestedOf w).map NestedRef.workflowName)

/-- The `nestedWorkflows` index (workflow id → nested workflow names). -/
def nestedIdx (e : ProjectExport) : List (String × List String) :=
  (workflowsOf e).foldl nestedIdxStep []

/-- The map built by `dependencyMap.set(workflowId, deps)` over the workflow pass. -/
def dependencyMap (e : ProjectExport) : List (String × List String) :=
  (workflowsOf e).foldl (fun m w => mapSet m w.id (workflowDeps w)) []

/-- The resolved display name `authentications.find(a => a.id === authId)?.name || authId`. -/
def authDisplay (auths : List Authentication) (authId : String) : String :=
  match auths.find? (fun a => a.id == authId) with
  | some a => orFalsy a.name authId
  | none => authId

/-- Character-level string drop (used for removing a tag that is known to
be a prefix, which is what `String.replace(tag, '')` does there). -/
def strDrop (s : String) (n : Nat) : String := String.mk (s.data.drop n)

/-- Character-level `String.startsWith`. -/
def strStarts (p s : String) : Bool := p.data.isPrefixOf s.data

/-- Join a list of lines, terminating each with a newline. -/
def unlines (ls : List String) : String := String.join (ls.map (· ++ "\n"))

/-- The rendered `workflow.description || "N/A"` (presentation-time fallback). -/
def descriptionText (w : Workflow) : String := orFalsy (w.description.getD "") "N/A"

/-- The `Connectors Used` sub-lines: the `connector:`-tagged dependency keys
with the tag removed (`dep.replace('connector:', '')`; the tag, of length 10,
is a prefix of every filtered key). -/
def connectorLines (deps : List String) : List String :=
  (deps.filter (strStarts "connector:")).map (fun d => "  - " ++ strDrop d 10)

/-- One `Authentications Required` sub-line for an `auth:`-tagged dependency
key `d`: the resolved name (or raw id) followed by the raw id, where the id
is `d` with the 5-character `auth:` tag removed. -/
def authDetailLine (auths : List Authentication) (d : String) : String :=
  "  - " ++ authDisplay auths (strDrop d 5) ++ " (" ++ strDrop d 5 ++ ")"

/-- The `Authentications Required` sub-lines. -/
def authLines (auths : List Authentication) (deps : List String) : List String :=
  (deps.filter (strStarts "auth:")).map (authDetailLine auths)

/-- The per-workflow detail section of the report. -/
def detailBlock (auths : List Authentication)
    (depMap nIdx : List (String × List String)) (w : Workflow) : String :=
  let deps := (mapGet depMap w.id).getD []
  "### " ++ w.name ++ " (" ++ w.id ++ ")\n"
  ++ "- **Description:** " ++ descriptionText w ++ "\n"
  ++ "- **Enabled:** " ++ (if w.enabled then "true" else "false") ++ "\n"
  ++ "- **Steps:** " ++ toString (stepsOf w).length ++ "\n"
  ++ "- **Total Dependencies:** " ++ toString deps.length ++ "\n"
  ++ (if (connectorLines deps).isEmpty then ""
      else "- **Connectors Used:**\n" ++ unlines (connectorLines deps))
  ++ (if (authLines auths deps).isEmpty then ""
      else "- **Authentications Required:**\n" ++ unlines (authLines auths deps))
  ++ (match mapGet nIdx w.id with
      | some names => "- **Nested Workflows:**\n" ++ unlines (names.map ("  - " ++ ·))
      | none => "")
  ++ "\n"

/-- The ordered per-workflow detail blocks. -/
def perWorkflowDetail (e : ProjectExport) : List String :=
  (workflowsOf e).map
    (detailBlock (authenticationsOf e) (dependencyMap e) (nestedIdx e))

/-- The comparator `(a, b) => b[1].size - a[1].size` of the cross-reference
sort, as a boolean "may precede" relation. -/
def usageLE (a b : String × List String) : Bool :=
  decide (b.2.length ≤ a.2.length)

/-- The sorted usage entries (`Array.from(m.entries()).sort(...)`; the
JavaScript sort is stable, so a stable merge sort over the
insertion-ordered entries). -/
def sortUsage (m : List (String × List String)) : List (String × List String) :=
  m.mergeSort usageLE

/-- A cross-reference section (`Connector Usage` / `Authentication Usage`),
emitted only when the usage map is non-empty. -/
def usageSection (title : String) (display : String → String)
    (m : List (String × List String)) : String :=
  if m.isEmpty then ""
  else
    "### " ++ title ++ "\n"
    ++ String.join ((sortUsage m).map (fun p =>
        "- **" ++ display p.1 ++ ":** Used by " ++ toString p.2.length
        ++ " workflow(s)\n" ++ unlines (p.2.map ("  - " ++ ·))))
    ++ "\n"

/-- The full `Cross-Reference Analysis` section. -/
def crossRefText (e : ProjectExport) : String :=
  "## Cross-Reference Analysis\n\n"
  ++ usageSection "Connector Usage" (fun k => k) (connUsage e)
  ++ usageSection "Authentication Usage" (authDisplay (authenticationsOf e))
    (authUsage e)

/-- The fixed part of the nested-workflow warning line. -/
def nestedMarker : String := "- ⚠️ **Nested Workflows Detected:**"

/-- The nested-workflow warning line with its count. -/
def nestedCountLine (n : Nat) : String :=
  nestedMarker ++ " " ++ toString n ++ " workflows contain nested calls"

/-- The nested-workflow warning block (three lines). -/
def nestedWarnLines (n : Nat) : List String :=
  [nestedCountLine n,
   "  - Ensure all nested workflows are included in migration",
   "  - Verify workflow execution order dependencies"]

/-- One connector-checklist line. -/
def connChecklistLine (k : String) : String :=
  "  - [ ] Verify " ++ k ++ " availability in target environment"

/-- One authentication-checklist line. -/
def authChecklistLine (auths : List Authentication) (k : String) : String :=
  "  - [ ] Recreate authentication: " ++ authDisplay auths k

/-- The migration recommendations as an ordered list of lines: the
nested-workflow warning, the connector checklist (in `connectorUsage`
insertion order) and the authentication checklist (in `authenticationUsage`
insertion order), each block present only when its index is non-empty. -/
def recommendations (e : ProjectExport) : List String :=
  (if (nestedIdx e).isEmpty then [] else nestedWarnLines (nestedIdx e).length)
  ++ (if (connUsage e).isEmpty then []
      else "- 📋 **Connector Migration Checklist:**"
        :: (connUsage e).map (fun p => connChecklistLine p.1))
  ++ (if (authUsage e).isEmpty then []
      else "- 🔑 **Authentication Migration Checklist:**"
        :: (authUsage e).map
          (fun p => authChecklistLine (authenticationsOf e) p.1))

/-- The rendered `Migration Recommendations` section (each emitted block is
followed by one separating blank line). -/
def recommendationsText (e : ProjectExport) : String :=
  "## Migration Recommendations\n\n"
  ++ (if (nestedIdx e).isEmpty then ""
      else unlines (nestedWarnLines (nestedIdx e).length) ++ "\n")
  ++ (if (connUsage e).isEmpty then ""
      else unlines ("- 📋 **Connector Migration Checklist:**"
        :: (connUsage e).map (fun p => connChecklistLine p.1)) ++ "\n")
  ++ (if (authUsage e).isEmpty then ""
      else unlines ("- 🔑 **Authentication Migration Checklist:**"
        :: (authUsage e).map
          (fun p => authChecklistLine (authenticationsOf e) p.1)) ++ "\n")

/-- The rendered `projectExport.project?.name || "Unknown"`. -/
def projectName (e : ProjectExport) : String :=
  orFalsy ((e.project.map ProjectInfo.name).getD "") "Unknown"

/-- The `Summary` section. -/
def summaryText (e : ProjectExport) : String :=
  "## Summary\n\n"
  ++ "- **Total Workflows:** " ++ toString (workflowsOf e).length ++ "\n"
  ++ "- **Total Connectors:** " ++ toString (connectorsOf e).length ++ "\n"
  ++ "- **Total Services:** " ++ toString (servicesOf e).length ++ "\n"
  ++ "- **Total Authentications:** " ++ toString (authenticationsOf e).length
  ++ "\n\n"

/-- Everything of the rendered report after the `Analysis Date` line. -/
def reportAfterDate (e : ProjectExport) : String :=
  "**Project:** " ++ projectName e ++ "\n\n"
  ++ summaryText e
  ++ "## Workflow Dependencies\n\n"
  ++ String.join (perWorkflowDetail e)
  ++ crossRefText e
  ++ recommendationsText e

/-- The full rendered report; `now` is the `new Date().toISOString()`
timestamp taken at invocation time. -/
def analysisReport (now : String) (e : ProjectExport) : String :=
  "# Workflow Dependencies Analysis\n\n**Analysis Date:** " ++ now ++ "\n"
  ++ reportAfterDate e

/-- The `region` enum of the tool's input schema. -/
inductive Region | us | eu | apac
deriving DecidableEq, Repr

/-- The tool handler: it accepts `token`, `projectExport` and an optional
`region` (defaulted to `us`), and returns the rendered report text; `token`
and the defaulted `region` are never read by the analysis body. -/
def analyzeWorkflowDependencies (now : String) (token : String)
    (region : Option Region) (e : ProjectExport) : String :=
  let _regionD := region.getD Region.us
  let _token := token
  analysisReport now e

/-- The workflow-name set stored in a usage map under key `k` (empty when
the key is absent). -/
def usageGet (m : List (String × List String)) (k : String) : List String :=
  (mapGet m k).getD []

/-- The conjunction tracked through the usage folds: the key is present and
the workflow name is in its set. -/
def usageHas (m : List (String × List String)) (k n : String) : Prop :=
  k ∈ m.map Prod.fst ∧ n ∈ usageGet m k

/-- Remove the `trigger` reference from a step (used to state that triggers
feed no global index). -/
def stepEraseTrigger (s : StepDef) : StepDef := { s with trigger := none }

/-- Remove every trigger reference from a workflow's steps. -/
def wfEraseTriggers (w : Workflow) : Workflow :=
  { w with steps := w.steps.map (List.map stepEraseTrigger) }

/-- Remove every trigger reference from an export document. -/
def eraseTriggers (e : ProjectExport) : ProjectExport :=
  { e with workflows := e.workflows.map (List.map wfEraseTriggers) }

/-! ## General helper lemmas -/

theorem foldl_pres {α β : Type} {P : β → Prop} {f : β → α → β}
    (hf : ∀ b a, P b → P (f b a)) :
    ∀ (l : List α) (b : β), P b → P (l.foldl f b) := by
  intro l
  induction l with
  | nil => intro b h; exact h
  | cons a l ih => intro b h; exact ih (f b a) (hf b a h)

theorem foldl_estab {α β : Type} {P : β → Prop} {f : β → α → β} {a : α}
    {l : List α} (ha : a ∈ l) (est : ∀ b, P (f b a))
    (hf : ∀ b x, P b → P (f b x)) (b : β) : P (l.foldl f b) := by
  induction l generalizing b with
  | nil => cases ha
  | cons hd tl ih =>
    rcases List.mem_cons.mp ha with rfl | hmem
    · exact foldl_pres hf tl (f b a) (est b)
    · exact ih hmem (f b hd)

theorem mem_addDep_self (l : List String) (d : String) : d ∈ addDep l d := by
  unfold addDep; split
  · assumption
  · simp

theorem mem_addDep_of_mem {l : List String} {x : String} (h : x ∈ l)
    (d : String) : x ∈ addDep l d := by
  unfold addDep; split
  · exact h
  · exact List.mem_append_left _ h

theorem mem_stepAddDeps_of_mem {l : List String} {x : String} (s : StepDef)
    (h : x ∈ l) : x ∈ stepAddDeps l s := by
  rcases s with ⟨c, t, a⟩
  unfold stepAddDeps
  cases c <;> cases t <;> cases a <;> dsimp only <;>
    (repeat apply mem_addDep_of_mem) <;> exact h

theorem connector_mem_stepAddDeps {s : StepDef} {c : ConnectorRef}
    (hc : s.connector = some c) (l : List String) :
    ("connector:" ++ connectorKey c) ∈ stepAddDeps l s := by
  rcases s with ⟨c', t, a⟩
  cases hc
  unfold stepAddDeps
  cases t <;> cases a <;> dsimp only <;>
    repeat (first | exact mem_addDep_self _ _ | apply mem_addDep_of_mem)

theorem trigger_mem_stepAddDeps {s : StepDef} {t : ConnectorRef}
    (ht : s.trigger = some t) (l : List String) :
    ("trigger:" ++ connectorKey t) ∈ stepAddDeps l s := by
  rcases s with ⟨c, t', a⟩
  cases ht
  unfold stepAddDeps
  cases c <;> cases a <;> dsimp only <;>
    repeat (first | exact mem_addDep_self _ _ | apply mem_addDep_of_mem)

theorem auth_mem_stepAddDeps {s : StepDef} {a : AuthRef}
    (ha : s.authentication = some a) (l : List String) :
    ("auth:" ++ a.id) ∈ stepAddDeps l s := by
  rcases s with ⟨c, t, a'⟩
  cases ha
  unfold stepAddDeps
  cases c <;> cases t <;> dsimp only <;> exact mem_addDep_self _ _

theorem mem_workflowDeps_of_mem_steps {w : Workflow} {x : String}
    (h : x ∈ (stepsOf w).foldl stepAddDeps []) : x ∈ workflowDeps w := by
  unfold workflowDeps
  exact foldl_pres (P := fun l => x ∈ l) (fun b a hb => mem_addDep_of_mem hb _)
    _ _ h

/-! ## Usage-map helper lemmas -/

theorem usageAdd_key_self (m : List (String × List String)) (k v : String) :
    k ∈ (usageAdd m k v).map Prod.fst := by
  induction m with
  | nil => simp [usageAdd]
  | cons p rest ih =>
    rcases p with ⟨k', vs⟩
    unfold usageAdd
    by_cases h : k' = k <;> simp [h, ih]

theorem usageGet_usageAdd_self (m : List (String × List String))
    (k v : String) : v ∈ usageGet (usageAdd m k v) k := by
  induction m with
  | nil => simp [usageAdd, usageGet, mapGet]
  | cons p rest ih =>
    rcases p with ⟨k', vs⟩
    unfold usageAdd
    by_cases h : k' = k
    · simp only [h, if_pos rfl, usageGet, mapGet, if_pos rfl, Option.getD_some]
      exact mem_addDep_self vs v
    · simpa [usageGet, mapGet, h] using ih

theorem usageAdd_key_mono {m : List (String × List String)} {x : String}
    (k v : String) (h : x ∈ m.map Prod.fst) :
    x ∈ (usageAdd m k v).map Prod.fst := by
  induction m with
  | nil => simp at h
  | cons p rest ih =>
    rcases p with ⟨k', vs⟩
    simp only [List.map_cons, List.mem_cons] at h
    unfold usageAdd
    by_cases hk : k' = k
    · subst hk
      simpa using h
    · simp only [if_neg hk, List.map_cons, List.mem_cons]
      rcases h with h1 | h1
      · exact Or.inl h1
      · exact Or.inr (ih h1)

theorem usageGet_usageAdd_mono {m : List (String × List String)}
    {x k' : String} (k v : String) (h : x ∈ usageGet m k') :
    x ∈ usageGet (usageAdd m k v) k' := by
  induction m with
  | nil => simp [usageGet, mapGet] at h
  | cons p rest ih =>
    rcases p with ⟨k₀, vs⟩
    unfold usageAdd
    by_cases h0 : k₀ = k
    · subst h0
      by_cases h1 : k₀ = k'
      · subst h1
        simp only [usageGet, mapGet, if_pos rfl, Option.getD_some] at h ⊢
        exact mem_addDep_of_mem h v
      · simpa [usageGet, mapGet, h1] using (by simpa [usageGet, mapGet, h1] using h)
    · by_cases h1 : k₀ = k'
      · subst h1
        simpa [usageGet, mapGet, if_neg h0] using (by simpa [usageGet, mapGet] using h)
      · simp only [if_neg h0]
        simpa [usageGet, mapGet, h1] using ih (by simpa [usageGet, mapGet, h1] using h)

theorem usageHas_usageAdd_self (m : List (String × List String))
    (k n : String) : usageHas (usageAdd m k n) k n :=
  ⟨usageAdd_key_self m k n, usageGet_usageAdd_self m k n⟩

theorem usageHas_usageAdd_mono {m : List (String × List String)} {k n : String}
    (h : usageHas m k n) (q r : String) : usageHas (usageAdd m q r) k n :=
  ⟨usageAdd_key_mono q r h.1, usageGet_usageAdd_mono q r h.2⟩

theorem usageHas_connUsageStep_mono {m : List (String × List String)}
    {k n : String} (h : usageHas m k n) (q : String) (s : StepDef) :
    usageHas (connUsageStep q m s) k n := by
  unfold connUsageStep
  cases s.connector with
  | none => exact h
  | some c => exact usageHas_usageAdd_mono h _ _

theorem usageHas_connUsageStep_self {s : StepDef} {c : ConnectorRef}
    (hc : s.connector = some c) (m : List (String × List String))
    (n : String) : usageHas (connUsageStep n m s) (connectorKey c) n := by
  unfold connUsageStep
  rw [hc]
  exact usageHas_usageAdd_self m _ n

theorem usageHas_authUsageStep_mono {m : List (String × List String)}
    {k n : String} (h : usageHas m k n) (q : String) (s : StepDef) :
    usageHas (authUsageStep q m s) k n := by
  unfold authUsageStep
  cases s.authentication with
  | none => exact h
  | some a => exact usageHas_usageAdd_mono h _ _

theorem usageHas_authUsageStep_self {s : StepDef} {a : AuthRef}
    (ha : s.authentication = some a) (m : List (String × List String))
    (n : String) : usageHas (authUsageStep n m s) a.id n := by
  unfold authUsageStep
  rw [ha]
  exact usageHas_usageAdd_self m _ n

theorem usageHas_connUsage {e : ProjectExport} {w : Workflow} {s : StepDef}
    {c : ConnectorRef} (hw : w ∈ workflowsOf e) (hs : s ∈ stepsOf w)
    (hc : s.connector = some c) :
    usageHas (connUsage e) (connectorKey c) w.name := by
  unfold connUsage
  refine foldl_estab (P := fun m => usageHas m (connectorKey c) w.name) hw
    (fun b => ?_) (fun b w' hb => ?_) []
  · unfold connUsageWf
    exact foldl_estab (P := fun m => usageHas m (connectorKey c) w.name) hs
      (fun b' => usageHas_connUsageStep_self hc b' w.name)
      (fun b' s' hb' => usageHas_connUsageStep_mono hb' w.name s') b
  · unfold connUsageWf
    exact foldl_pres (P := fun m => usageHas m (connectorKey c) w.name)
      (fun b' s' hb' => usageHas_connUsageStep_mono hb' w'.name s') _ b hb

theorem usageHas_authUsage {e : ProjectExport} {w : Workflow} {s : StepDef}
    {a : AuthRef} (hw : w ∈ workflowsOf e) (hs : s ∈ stepsOf w)
    (ha : s.authentication = some a) : usageHas (authUsage e) a.id w.name := by
  unfold authUsage
  refine foldl_estab (P := fun m => usageHas m a.id w.name) hw
    (fun b => ?_) (fun b w' hb => ?_) []
  · unfold authUsageWf
    exact foldl_estab (P := fun m => usageHas m a.id w.name) hs
      (fun b' => usageHas_authUsageStep_self ha b' w.name)
      (fun b' s' hb' => usageHas_authUsageStep_mono hb' w.name s') b
  · unfold authUsageWf
    exact foldl_pres (P := fun m => usageHas m a.id w.name)
      (fun b' s' hb' => usageHas_authUsageStep_mono hb' w'.name s') _ b hb

/-! ## Claim theorems -/

/-- C1 (counterexample): for the workflow `WF` with one step whose connector
is `{name: "slack", version: "9.0"}`, the dependency set does receive the
key `"connector:slack:9.0"`, but `"connector:slack:9.0"` is NOT a key of
`connectorUsage` — the usage map is keyed by the unprefixed `"slack:9.0"`. -/
theorem spec_C1_counterexample :
    ("connector:slack:9.0" ∈ workflowDeps
       { id := "w1", name := "WF",
         steps := some [{ connector := some ⟨"slack", "9.0"⟩ }] })
    ∧ (connUsage
         { workflows := some
             [{ id := "w1", name := "WF",
                steps := some [{ connector := some ⟨"slack", "9.0"⟩ }] }]
         }).map Prod.fst = ["slack:9.0"]
    ∧ "connector:slack:9.0" ∉ (connUsage
         { workflows := some
             [{ id := "w1", name := "WF",
                steps := some [{ connector := some ⟨"slack", "9.0"⟩ }] }]
         }).map Prod.fst :=
  ⟨by decide, by decide, by decide⟩

/-- C1 (amended): for every workflow containing a step whose connector is
`{name: n, version: v}`, the key `"connector:n:v"` is added to that
workflow's dependency set, the unprefixed key `"n:v"` (without the
`"connector:"` tag) is a key of the `connectorUsage` map, and the workflow's
name is a member of `connectorUsage["n:v"]`. -/
theorem spec_C1 {e : ProjectExport} {w : Workflow} {s : StepDef}
    {c : ConnectorRef} (hw : w ∈ workflowsOf e) (hs : s ∈ stepsOf w)
    (hc : s.connector = some c) :
    ("connector:" ++ connectorKey c) ∈ workflowDeps w
    ∧ connectorKey c ∈ (connUsage e).map Prod.fst
    ∧ w.name ∈ usageGet (connUsage e) (connectorKey c) := by
  refine ⟨?_, ?_, ?_⟩
  · exact mem_workflowDeps_of_mem_steps
      (foldl_estab (P := fun l => ("connector:" ++ connectorKey c) ∈ l) hs
        (fun b => connector_mem_stepAddDeps hc b)
        (fun b x hb => mem_stepAddDeps_of_mem x hb) [])
  · exact (usageHas_connUsage hw hs hc).1
  · exact (usageHas_connUsage hw hs hc).2

/-- C1 (witness): the amended claim instantiated on the slack example. -/
theorem spec_C1_witness :
    ("connector:" ++ connectorKey ⟨"slack", "9.0"⟩) ∈ workflowDeps
      { id := "w1", name := "WF",
        steps := some [{ connector := some ⟨"slack", "9.0"⟩ }] }
    ∧ connectorKey ⟨"slack", "9.0"⟩ ∈ (connUsage
        { workflows := some
            [{ id := "w1", name := "WF",
               steps := some [{ connector := some ⟨"slack", "9.0"⟩ }] }]
        }).map Prod.fst
    ∧ "WF" ∈ usageGet (connUsage
        { workflows := some
            [{ id := "w1", name := "WF",
               steps := some [{ connector := some ⟨"slack", "9.0"⟩ }] }]
        }) (connectorKey ⟨"slack", "9.0"⟩) :=
  @spec_C1
    { workflows := some
        [{ id := "w1", name := "WF",
           steps := some [{ connector := some ⟨"slack", "9.0"⟩ }] }] }
    { id := "w1", name := "WF",
      steps := some [{ connector := some ⟨"slack", "9.0"⟩ }] }
    { connector := some ⟨"slack", "9.0"⟩ }
    ⟨"slack", "9.0"⟩ (by decide) (by decide) rfl

/-- C3: an export whose workflows collection is the empty sequence yields an
empty per-workflow detail sequence, empty usage maps, an empty
nested-workflow index, and no recommendations. -/
theorem spec_C3 (e : ProjectExport) (h : e.workflows = some []) :
    perWorkflowDetail e = [] ∧ connUsage e = [] ∧ authUsage e = []
    ∧ nestedIdx e = [] ∧ recommendations e = [] := by
  have hw : workflowsOf e = [] := by simp [workflowsOf, h]
  refine ⟨?_, ?_, ?_, ?_, ?_⟩ <;>
    simp [perWorkflowDetail, connUsage, authUsage, nestedIdx, recommendations,
      hw]

/-- C3 (witness): the empty-workflows export. -/
theorem spec_C3_witness :
    perWorkflowDetail { workflows := some [] } = []
    ∧ connUsage { workflows := some [] } = []
    ∧ authUsage { workflows := some [] } = []
    ∧ nestedIdx { workflows := some [] } = []
    ∧ recommendations { workflows := some [] } = [] :=
  spec_C3 _ rfl

theorem stepsOf_erase (w : Workflow) :
    stepsOf (wfEraseTriggers w) = (stepsOf w).map stepEraseTrigger := by
  cases h : w.steps <;> simp [stepsOf, wfEraseTriggers, h]

theorem workflowsOf_erase (e : ProjectExport) :
    workflowsOf (eraseTriggers e) = (workflowsOf e).map wfEraseTriggers := by
  cases h : e.workflows <;> simp [workflowsOf, eraseTriggers, h]

theorem authenticationsOf_erase (e : ProjectExport) :
    authenticationsOf (eraseTriggers e) = authenticationsOf e := rfl

theorem connUsageStep_erase (n : String) (m : List (String × List String))
    (s : StepDef) : connUsageStep n m (stepEraseTrigger s) = connUsageStep n m s := by
  cases s; rfl

theorem authUsageStep_erase (n : String) (m : List (String × List String))
    (s : StepDef) : authUsageStep n m (stepEraseTrigger s) = authUsageStep n m s := by
  cases s; rfl

theorem connUsageWf_erase (m : List (String × List String)) (w : Workflow) :
    connUsageWf m (wfEraseTriggers w) = connUsageWf m w := by
  unfold connUsageWf
  rw [stepsOf_erase, List.foldl_map]
  have hf : (fun (b : List (String × List String)) (s : StepDef) =>
      connUsageStep (wfEraseTriggers w).name b (stepEraseTrigger s))
      = fun b s => connUsageStep w.name b s := by
    funext b s
    exact connUsageStep_erase _ _ _
  rw [hf]

theorem authUsageWf_erase (m : List (String × List String)) (w : Workflow) :
    authUsageWf m (wfEraseTriggers w) = authUsageWf m w := by
  unfold authUsageWf
  rw [stepsOf_erase, List.foldl_map]
  have hf : (fun (b : List (String × List String)) (s : StepDef) =>
      authUsageStep (wfEraseTriggers w).name b (stepEraseTrigger s))
      = fun b s => authUsageStep w.name b s := by
    funext b s
    exact authUsageStep_erase _ _ _
  rw [hf]

theorem connUsage_erase (e : ProjectExport) :
    connUsage (eraseTriggers e) = connUsage e := by
  unfold connUsage
  rw [workflowsOf_erase, List.foldl_map]
  have hf : (fun (m : List (String × List String)) (w : Workflow) =>
      connUsageWf m (wfEraseTriggers w)) = connUsageWf := by
    funext m w
    exact connUsageWf_erase m w
  rw [hf]

theorem authUsage_erase (e : ProjectExport) :
    authUsage (eraseTriggers e) = authUsage e := by
  unfold authUsage
  rw [workflowsOf_erase, List.foldl_map]
  have hf : (fun (m : List (String × List String)) (w : Workflow) =>
      authUsageWf m (wfEraseTriggers w)) = authUsageWf := by
    funext m w
    exact authUsageWf_erase m w
  rw [hf]

theorem nestedIdxStep_erase (m : List (String × List String)) (w : Workflow) :
    nestedIdxStep m (wfEraseTriggers w) = nestedIdxStep m w := by
  cases w; rfl

theorem nestedIdx_erase (e : ProjectExport) :
    nestedIdx (eraseTriggers e) = nestedIdx e := by
  unfold nestedIdx
  rw [workflowsOf_erase, List.foldl_map]
  have hf : (fun (m : List (String × List String)) (w : Workflow) =>
      nestedIdxStep m (wfEraseTriggers w)) = nestedIdxStep := by
    funext m w
    exact nestedIdxStep_erase m w
  rw [hf]

/-- C6: a step's trigger `{name: n, version: v}` contributes the key
`"trigger:n:v"` to the containing workflow's dependency set, and trigger
references contribute nothing else: erasing every trigger from the export
leaves `connectorUsage`, `authenticationUsage`, the nested-workflow index,
the cross-reference section and the recommendations unchanged. -/
theorem spec_C6 (e : ProjectExport) {w : Workflow} {s : StepDef}
    {t : ConnectorRef} (hs : s ∈ stepsOf w) (ht : s.trigger = some t) :
    ("trigger:" ++ connectorKey t) ∈ workflowDeps w
    ∧ connUsage (eraseTriggers e) = connUsage e
    ∧ authUsage (eraseTriggers e) = authUsage e
    ∧ nestedIdx (eraseTriggers e) = nestedIdx e
    ∧ crossRefText (eraseTriggers e) = crossRefText e
    ∧ recommendations (eraseTriggers e) = recommendations e
    ∧ recommendationsText (eraseTriggers e) = recommendationsText e := by
  refine ⟨?_, connUsage_erase e, authUsage_erase e, nestedIdx_erase e, ?_, ?_, ?_⟩
  · exact mem_workflowDeps_of_mem_steps
      (foldl_estab (P := fun l => ("trigger:" ++ connectorKey t) ∈ l) hs
        (fun b => trigger_mem_stepAddDeps ht b)
        (fun b x hb => mem_stepAddDeps_of_mem x hb) [])
  · unfold crossRefText
    rw [connUsage_erase, authUsage_erase, authenticationsOf_erase]
  · unfold recommendations
    rw [connUsage_erase, authUsage_erase, nestedIdx_erase, authenticationsOf_erase]
  · unfold recommendationsText
    rw [connUsage_erase, authUsage_erase, nestedIdx_erase, authenticationsOf_erase]

/-- C6 (witness): a workflow with a single trigger step, inside an export. -/
theorem spec_C6_witness :
    ("trigger:" ++ connectorKey ⟨"cron", "1.0"⟩) ∈ workflowDeps
      { id := "w1", name := "WF",
        steps := some [{ trigger := some ⟨"cron", "1.0"⟩ }] }
    ∧ connUsage (eraseTriggers
        { workflows := some
            [{ id := "w1", name := "WF",
               steps := some [{ trigger := some ⟨"cron", "1.0"⟩ }] }] })
      = connUsage
        { workflows := some
            [{ id := "w1", name := "WF",
               steps := some [{ trigger := some ⟨"cron", "1.0"⟩ }] }] } := by
  have h := @spec_C6
    { workflows := some
        [{ id := "w1", name := "WF",
           steps := some [{ trigger := some ⟨"cron", "1.0"⟩ }] }] }
    { id := "w1", name := "WF",
      steps := some [{ trigger := some ⟨"cron", "1.0"⟩ }] }
    { trigger := some ⟨"cron", "1.0"⟩ }
    ⟨"cron", "1.0"⟩ (by decide) rfl
  exact ⟨h.1, h.2.1⟩

/-- C2 (counterexample): two invocations on the same (empty) document at
different timestamps render different report texts, because the report
embeds the invocation time in its `Analysis Date` line. -/
theorem spec_C2_counterexample :
    analysisReport "2025-01-01T00:00:00.000Z" {}
      ≠ analysisReport "2025-01-02T00:00:00.000Z" {} := by decide

/-- C2 (amended): the analysis is a deterministic function of the document
and the invocation timestamp. The structured results (`dependencyMap`,
`connectorUsage`, `authenticationUsage`, `nestedWorkflowIndex`,
`recommendations`, the per-workflow detail) are functions of the document
alone, but the rendered report text embeds the timestamp: two invocations
on the same document produce identical text exactly when their timestamps
coincide. -/
theorem spec_C2 (now₁ now₂ : String) (e : ProjectExport) :
    analysisReport now₁ e = analysisReport now₂ e ↔ now₁ = now₂ := by
  constructor
  · intro h
    unfold analysisReport at h
    have hd := congrArg String.data h
    simp only [String.data_append, List.append_assoc] at hd
    exact String.ext
      (List.append_cancel_right (List.append_cancel_left hd))
  · rintro rfl
    rfl

theorem strDrop_auth (i : String) : strDrop ("auth:" ++ i) 5 = i := by
  show String.mk (("auth:" ++ i).data.drop 5) = i
  rw [String.data_append,
    List.drop_left' (show ("auth:".data).length = 5 from rfl)]

/-- C5 (counterexample): for an authentication whose id does occur but whose
name is the empty string, the JavaScript falsy fallback `auth?.name || id`
displays the raw id, not the matching authentication's name. -/
theorem spec_C5_counterexample :
    ([⟨"a1", ""⟩] : List Authentication).find? (fun a => a.id == "a1")
      = some ⟨"a1", ""⟩
    ∧ authDisplay [⟨"a1", ""⟩] "a1" = "a1"
    ∧ authDisplay [⟨"a1", ""⟩] "a1" ≠ (⟨"a1", ""⟩ : Authentication).name := by
  refine ⟨by decide, by decide, by decide⟩

/-- C5 (amended): a step referencing an authentication id never fails the
analysis. When the id does not occur in `export.authentications`, the
per-workflow detail line and the `Recreate authentication:` checklist line
display the raw id; when the first matching authentication has a non-empty
(truthy) name, that name is displayed instead (an empty name also falls
back to the raw id). -/
theorem spec_C5 (A : List Authentication) (i : String) :
    (A.find? (fun a => a.id == i) = none →
      authDisplay A i = i
      ∧ authDetailLine A ("auth:" ++ i) = "  - " ++ i ++ " (" ++ i ++ ")"
      ∧ authChecklistLine A i = "  - [ ] Recreate authentication: " ++ i)
    ∧ (∀ b, A.find? (fun a => a.id == i) = some b → b.name ≠ "" →
      authDisplay A i = b.name
      ∧ authDetailLine A ("auth:" ++ i) = "  - " ++ b.name ++ " (" ++ i ++ ")"
      ∧ authChecklistLine A i = "  - [ ] Recreate authentication: " ++ b.name) := by
  constructor
  · intro h
    have hd : authDisplay A i = i := by
      unfold authDisplay
      rw [h]
    refine ⟨hd, ?_, ?_⟩
    · unfold authDetailLine
      rw [strDrop_auth, hd]
    · unfold authChecklistLine
      rw [hd]
  · intro b hb hn
    have hd : authDisplay A i = b.name := by
      unfold authDisplay
      rw [hb]
      show orFalsy b.name i = b.name
      unfold orFalsy
      rw [if_neg hn]
    refine ⟨hd, ?_, ?_⟩
    · unfold authDetailLine
      rw [strDrop_auth, hd]
    · unfold authChecklistLine
      rw [hd]

/-- C5 (witness): the amended claim instantiated on a missing id (empty
authentication list) and on a present id with a non-empty name. -/
theorem spec_C5_witness :
    (authDisplay [] "a9" = "a9"
     ∧ authDetailLine [] ("auth:" ++ "a9") = "  - " ++ "a9" ++ " (" ++ "a9" ++ ")"
     ∧ authChecklistLine [] "a9" = "  - [ ] Recreate authentication: " ++ "a9")
    ∧ (authDisplay [⟨"a1", "HubSpot Auth"⟩] "a1" = "HubSpot Auth"
     ∧ authDetailLine [⟨"a1", "HubSpot Auth"⟩] ("auth:" ++ "a1")
         = "  - " ++ "HubSpot Auth" ++ " (" ++ "a1" ++ ")"
     ∧ authChecklistLine [⟨"a1", "HubSpot Auth"⟩] "a1"
         = "  - [ ] Recreate authentication: " ++ "HubSpot Auth") := by
  constructor
  · exact (spec_C5 [] "a9").1 rfl
  · have h := (spec_C5 [⟨"a1", "HubSpot Auth"⟩] "a1").2 ⟨"a1", "HubSpot Auth"⟩
      (by decide) (by decide)
    exact ⟨h.1, h.2.1, h.2.2⟩

theorem usageLE_trans (a b c : String × List String) (h₁ : usageLE a b)
    (h₂ : usageLE b c) : usageLE a c := by
  simp only [usageLE, decide_eq_true_eq] at h₁ h₂ ⊢
  omega

theorem usageLE_total (a b : String × List String) :
    usageLE a b || usageLE b a := by
  simp only [usageLE]
  by_cases h : b.2.length ≤ a.2.length
  · simp [h]
  · simp [Nat.le_of_lt (Nat.lt_of_not_le h)]

theorem sortUsage_spec (m : List (String × List String)) :
    (sortUsage m).Pairwise (fun a b => b.2.length ≤ a.2.length)
    ∧ List.Perm (sortUsage m) m
    ∧ ∀ x y, List.Sublist [x, y] m → x.2.length = y.2.length →
        List.Sublist [x, y] (sortUsage m) := by
  refine ⟨?_, List.mergeSort_perm m usageLE, ?_⟩
  · have h := List.sorted_mergeSort usageLE_trans usageLE_total m
    exact h.imp (fun hab => by
      simpa only [usageLE, decide_eq_true_eq] using hab)
  · intro x y hsub heq
    exact List.pair_sublist_mergeSort usageLE_trans usageLE_total
      (by simp [usageLE, heq]) hsub

/-- C7: the cross-reference sections list the connector-usage entries in
descending order of the number of distinct workflow names using each key
(the sorted sequence is a permutation of the usage map), entries with equal
counts staying in the order the keys were first encountered (the sort is
stable over the insertion-ordered entries); authentication usage is ordered
the same way. -/
theorem spec_C7 (e : ProjectExport) :
    ((sortUsage (connUsage e)).Pairwise (fun a b => b.2.length ≤ a.2.length)
     ∧ List.Perm (sortUsage (connUsage e)) (connUsage e)
     ∧ ∀ x y, List.Sublist [x, y] (connUsage e) → x.2.length = y.2.length →
        List.Sublist [x, y] (sortUsage (connUsage e)))
    ∧ ((sortUsage (authUsage e)).Pairwise (fun a b => b.2.length ≤ a.2.length)
     ∧ List.Perm (sortUsage (authUsage e)) (authUsage e)
     ∧ ∀ x y, List.Sublist [x, y] (authUsage e) → x.2.length = y.2.length →
        List.Sublist [x, y] (sortUsage (authUsage e))) :=
  ⟨sortUsage_spec (connUsage e), sortUsage_spec (authUsage e)⟩

/-- C7 (witness): on an export where two connectors are used by one workflow
each and a third by two workflows, the stability clause instantiated on the
two equal-count entries. -/
theorem spec_C7_witness :
    List.Sublist [("a:1", ["W1"]), ("b:1", ["W1"])] (connUsage
      { workflows := some
          [{ id := "w1", name := "W1",
             steps := some [{ connector := some ⟨"a", "1"⟩ },
                            { connector := some ⟨"b", "1"⟩ }] }] })
    ∧ List.Sublist [("a:1", ["W1"]), ("b:1", ["W1"])] (sortUsage (connUsage
      { workflows := some
          [{ id := "w1", name := "W1",
             steps := some [{ connector := some ⟨"a", "1"⟩ },
                            { connector := some ⟨"b", "1"⟩ }] }] })) := by
  refine ⟨by decide, ?_⟩
  exact (spec_C7 _).1.2.2 _ _ (by decide) rfl

/-- C8: the analysis never fails on structurally incomplete input. An absent
`workflows`, `authentications`, `connectors` or `services` collection is
read exactly like an empty one (the rendered report is identical); a
workflow with absent `steps` or `nestedWorkflows` behaves like one with
empty collections; an absent `description` renders as `"N/A"`; and a step
with neither connector, trigger, nor authentication contributes no
dependency keys and no usage entries. -/
theorem spec_C8 (now : String) (e : ProjectExport) (w : Workflow)
    (s : StepDef) (ds : List String) (n : String)
    (m : List (String × List String)) :
    analysisReport now { e with workflows := none }
      = analysisReport now { e with workflows := some [] }
    ∧ analysisReport now { e with authentications := none }
      = analysisReport now { e with authentications := some [] }
    ∧ analysisReport now { e with connectors := none }
      = analysisReport now { e with connectors := some [] }
    ∧ analysisReport now { e with services := none }
      = analysisReport now { e with services := some [] }
    ∧ workflowDeps { w with steps := none }
      = workflowDeps { w with steps := some [] }
    ∧ workflowDeps { w with nestedWorkflows := none }
      = workflowDeps { w with nestedWorkflows := some [] }
    ∧ detailBlock (authenticationsOf e) (dependencyMap e) (nestedIdx e)
        { w with steps := none }
      = detailBlock (authenticationsOf e) (dependencyMap e) (nestedIdx e)
        { w with steps := some [] }
    ∧ (w.description = none → descriptionText w = "N/A")
    ∧ (s.connector = none → s.trigger = none → s.authentication = none →
        stepAddDeps ds s = ds
        ∧ connUsageStep n m s = m
        ∧ authUsageStep n m s = m) := by
  refine ⟨rfl, rfl, rfl, rfl, rfl, rfl, rfl, ?_, ?_⟩
  · intro hd
    unfold descriptionText
    rw [hd]
    rfl
  · intro hc ht ha
    refine ⟨?_, ?_, ?_⟩
    · unfold stepAddDeps
      rw [hc, ht, ha]
    · unfold connUsageStep
      rw [hc]
    · unfold authUsageStep
      rw [ha]

/-- C8 (witness): the absence tolerance instantiated on a concrete workflow
without a description and a step with no dependency-bearing field. -/
theorem spec_C8_witness :
    analysisReport "D" { workflows := none }
      = analysisReport "D" { workflows := some [] }
    ∧ descriptionText { id := "w1", name := "W" } = "N/A"
    ∧ stepAddDeps ["k"] {} = ["k"] := by
  have h := spec_C8 "D" {} { id := "w1", name := "W" } {} ["k"] "W" []
  exact ⟨h.1, h.2.2.2.2.2.2.2.1 rfl, (h.2.2.2.2.2.2.2.2 rfl rfl rfl).1⟩

theorem mapGet_mapSet_self (m : List (String × α)) (k : String) (v : α) :
    mapGet (mapSet m k v) k = some v := by
  induction m with
  | nil => simp [mapSet, mapGet]
  | cons p rest ih =>
    rcases p with ⟨k₀, v₀⟩
    unfold mapSet
    by_cases h : k₀ = k
    · simp [h, mapGet]
    · simpa [mapGet, h] using ih

theorem mapGet_mapSet_ne {q k : String} (h : q ≠ k) (m : List (String × α))
    (v : α) : mapGet (mapSet m k v) q = mapGet m q := by
  induction m with
  | nil => simp [mapSet, mapGet, Ne.symm h]
  | cons p rest ih =>
    rcases p with ⟨k₀, v₀⟩
    by_cases h0 : k₀ = k
    · subst h0
      simp [mapSet, mapGet, Ne.symm h]
    · by_cases h1 : k₀ = q
      · subst h1
        simp [mapSet, mapGet, h0]
      · simp [mapSet, mapGet, h0, h1, ih]

theorem mapSet_of_not_mem {m : List (String × α)} {k : String}
    (h : k ∉ m.map Prod.fst) (v : α) : mapSet m k v = m ++ [(k, v)] := by
  induction m with
  | nil => rfl
  | cons p rest ih =>
    rcases p with ⟨k₀, v₀⟩
    simp only [List.map_cons, List.mem_cons, not_or] at h
    unfold mapSet
    rw [if_neg (fun hh => h.1 hh.symm), ih h.2]
    rfl

theorem mapSet_ne_nil (m : List (String × α)) (k : String) (v : α) :
    mapSet m k v ≠ [] := by
  cases m with
  | nil => simp [mapSet]
  | cons p rest =>
    rcases p with ⟨k₀, v₀⟩
    unfold mapSet
    split <;> simp

theorem nestedIdxStep_ne_nil {m : List (String × List String)} {w : Workflow}
    (h : m ≠ []) : nestedIdxStep m w ≠ [] := by
  unfold nestedIdxStep
  split
  · exact h
  · exact mapSet_ne_nil m w.id _

theorem nestedIdx_fold_get_skip {ws : List Workflow} {k : String}
    (h : ∀ w ∈ ws, w.id ≠ k) (m : List (String × List String)) :
    mapGet (ws.foldl nestedIdxStep m) k = mapGet m k := by
  induction ws generalizing m with
  | nil => rfl
  | cons w₀ ws ih =>
    rw [List.foldl_cons, ih (fun w hw => h w (List.mem_cons_of_mem w₀ hw))]
    unfold nestedIdxStep
    split
    · rfl
    · exact mapGet_mapSet_ne
        (fun hh => h w₀ (List.mem_cons_self w₀ ws) hh.symm) m _

theorem nestedIdx_fold_get {ws : List Workflow} {w : Workflow}
    (hn : (ws.map Workflow.id).Nodup) (hw : w ∈ ws)
    (hne : nestedOf w ≠ []) (m : List (String × List String)) :
    mapGet (ws.foldl nestedIdxStep m) w.id
      = some ((nestedOf w).map NestedRef.workflowName) := by
  induction ws generalizing m with
  | nil => cases hw
  | cons w₀ ws ih =>
    simp only [List.map_cons, List.nodup_cons] at hn
    rcases List.mem_cons.mp hw with rfl | hmem
    · have hskip : ∀ w' ∈ ws, w'.id ≠ w.id := by
        intro w' hw' hh
        exact hn.1 (hh ▸ List.mem_map_of_mem Workflow.id hw')
      rw [List.foldl_cons, nestedIdx_fold_get_skip hskip]
      unfold nestedIdxStep
      rw [if_neg (by simpa [List.isEmpty_iff] using hne)]
      exact mapGet_mapSet_self m w.id _
    · rw [List.foldl_cons]
      exact ih hn.2 hmem _

theorem nestedIdx_fold_length {ws : List Workflow}
    (hn : (ws.map Workflow.id).Nodup) :
    ∀ (m : List (String × List String)),
    (∀ w ∈ ws, nestedOf w ≠ [] → w.id ∉ m.map Prod.fst) →
    (ws.foldl nestedIdxStep m).length
      = m.length + (ws.filter (fun w => !(nestedOf w).isEmpty)).length := by
  induction ws with
  | nil => intro m _; simp
  | cons w₀ ws ih =>
    intro m hm
    simp only [List.map_cons, List.nodup_cons] at hn
    rw [List.foldl_cons]
    by_cases he : nestedOf w₀ = []
    · have hstep : nestedIdxStep m w₀ = m := by
        unfold nestedIdxStep
        rw [if_pos (by simp [he])]
      rw [hstep, List.filter_cons_of_neg (by simp [he]),
        ih hn.2 m (fun w hw => hm w (List.mem_cons_of_mem w₀ hw))]
    · have hnotin : w₀.id ∉ m.map Prod.fst :=
        hm w₀ (List.mem_cons_self w₀ ws) he
      have hstep : nestedIdxStep m w₀
          = m ++ [(w₀.id, (nestedOf w₀).map NestedRef.workflowName)] := by
        unfold nestedIdxStep
        rw [if_neg (by simpa [List.isEmpty_iff] using he)]
        exact mapSet_of_not_mem hnotin _
      rw [hstep, List.filter_cons_of_pos (by simpa [List.isEmpty_iff] using he),
        ih hn.2 _ ?_]
      · simp only [List.length_append, List.length_cons, List.length_nil]
        omega
      · intro w hw hne
        simp only [List.map_append, List.mem_append, not_or]
        refine ⟨hm w (List.mem_cons_of_mem w₀ hw) hne, ?_⟩
        intro hmem
        simp only [List.map_cons, List.map_nil, List.mem_cons,
          List.not_mem_nil, or_false] at hmem
        exact hn.1 (hmem ▸ List.mem_map_of_mem Workflow.id hw)

theorem nestedIdx_ne_nil {e : ProjectExport} {w : Workflow}
    (hw : w ∈ workflowsOf e) (hne : nestedOf w ≠ []) : nestedIdx e ≠ [] := by
  unfold nestedIdx
  refine foldl_estab (P := fun m => m ≠ []) hw (fun b => ?_)
    (fun b w' hb => nestedIdxStep_ne_nil hb) []
  unfold nestedIdxStep
  rw [if_neg (by simpa [List.isEmpty_iff] using hne)]
  exact mapSet_ne_nil b w.id _

theorem isPrefixOf_eq_false_of_head (c d : Char) {l₁ l₂ : List Char}
    (h₁ : l₁.head? = some c) (h₂ : l₂.head? = some d) (h : c ≠ d) :
    l₁.isPrefixOf l₂ = false := by
  cases l₁ with
  | nil => simp at h₁
  | cons a as =>
    cases l₂ with
    | nil => simp at h₂
    | cons b bs =>
      simp only [List.head?_cons, Option.some.injEq] at h₁ h₂
      subst h₁
      subst h₂
      rw [List.isPrefixOf_cons₂]
      simp [h]

theorem strStarts_nestedCountLine (k : Nat) :
    strStarts nestedMarker (nestedCountLine k) = true := by
  unfold strStarts nestedCountLine
  simp only [String.data_append, List.append_assoc]
  rw [ List.isPrefixOf_iff_prefix]
  exact ⟨_, rfl⟩

theorem strStarts_connChecklist (k : String) :
    strStarts nestedMarker (connChecklistLine k) = false :=
  isPrefixOf_eq_false_of_head '-' ' ' rfl rfl (by decide)

theorem strStarts_authChecklist (A : List Authentication) (k : String) :
    strStarts nestedMarker (authChecklistLine A k) = false :=
  isPrefixOf_eq_false_of_head '-' ' ' rfl rfl (by decide)

/-- C4 (counterexample): when two workflows share the id `"w"` and both have
non-empty `nestedWorkflows`, the `Map.set` on the shared id leaves a single
index entry, so the emitted warning line counts 1 although 2 workflows have
nested calls — the count is the number of distinct ids, not the number of
workflows. -/
theorem spec_C4_counterexample :
    ((workflowsOf
        { workflows := some
            [{ id := "w", name := "A", nestedWorkflows := some [⟨"w2", "X", "s1"⟩] },
             { id := "w", name := "B",
               nestedWorkflows := some [⟨"w3", "Y", "s1"⟩, ⟨"w4", "Z", "s2"⟩] }] }).filter
      (fun w => !(nestedOf w).isEmpty)).length = 2
    ∧ (recommendations
        { workflows := some
            [{ id := "w", name := "A", nestedWorkflows := some [⟨"w2", "X", "s1"⟩] },
             { id := "w", name := "B",
               nestedWorkflows := some [⟨"w3", "Y", "s1"⟩, ⟨"w4", "Z", "s2"⟩] }] }).filter
      (strStarts nestedMarker) = [nestedCountLine 1]
    ∧ nestedCountLine 1 ≠ nestedCountLine 2 := by
  refine ⟨by decide, by decide, by decide⟩

/-- C4 (amended): provided workflow ids are pairwise distinct (the spec's
stated id-uniqueness assumption), whenever at least one workflow has a
non-empty `nestedWorkflows` list the recommendations contain exactly one
nested-workflow warning line, and the count in that line is the number of
workflows whose `nestedWorkflows` list is non-empty (not the total number
of nested entries); with duplicate ids the count drops to the number of
distinct such ids. -/
theorem spec_C4 (e : ProjectExport)
    (hn : ((workflowsOf e).map Workflow.id).Nodup)
    (hex : ∃ w ∈ workflowsOf e, nestedOf w ≠ []) :
    (recommendations e).filter (strStarts nestedMarker)
      = [nestedCountLine ((workflowsOf e).filter
          (fun w => !(nestedOf w).isEmpty)).length] := by
  obtain ⟨w, hw, hne⟩ := hex
  have hnil := nestedIdx_ne_nil hw hne
  have hlen : (nestedIdx e).length
      = ((workflowsOf e).filter (fun w => !(nestedOf w).isEmpty)).length := by
    have h := nestedIdx_fold_length hn [] (by simp)
    simpa [nestedIdx] using h
  unfold recommendations
  rw [List.filter_append, List.filter_append]
  have h1 : (if (nestedIdx e).isEmpty then []
      else nestedWarnLines (nestedIdx e).length).filter (strStarts nestedMarker)
      = [nestedCountLine (nestedIdx e).length] := by
    rw [if_neg (by simpa [List.isEmpty_iff] using hnil)]
    unfold nestedWarnLines
    rw [List.filter_cons_of_pos (strStarts_nestedCountLine _),
      List.filter_cons_of_neg (by decide),
      List.filter_cons_of_neg (by decide),
      List.filter_nil]
  have h2 : (if (connUsage e).isEmpty then []
      else "- 📋 **Connector Migration Checklist:**"
        :: (connUsage e).map (fun p => connChecklistLine p.1)).filter
      (strStarts nestedMarker) = [] := by
    rw [List.filter_eq_nil_iff]
    intro a ha
    split at ha
    · simp at ha
    · rcases List.mem_cons.mp ha with rfl | hm
      · decide
      · obtain ⟨q, hq, rfl⟩ := List.mem_map.mp hm
        simp [strStarts_connChecklist]
  have h3 : (if (authUsage e).isEmpty then []
      else "- 🔑 **Authentication Migration Checklist:**"
        :: (authUsage e).map
          (fun p => authChecklistLine (authenticationsOf e) p.1)).filter
      (strStarts nestedMarker) = [] := by
    rw [List.filter_eq_nil_iff]
    intro a ha
    split at ha
    · simp at ha
    · rcases List.mem_cons.mp ha with rfl | hm
      · decide
      · obtain ⟨q, hq, rfl⟩ := List.mem_map.mp hm
        simp [strStarts_authChecklist]
  rw [h1, h2, h3, hlen]
  simp

/-- C4 (witness): the amended claim instantiated on a single workflow with
one nested entry. -/
theorem spec_C4_witness :
    (recommendations
        { workflows := some
            [{ id := "w1", name := "W1",
               nestedWorkflows := some [⟨"w2", "SubFlow", "s1"⟩] }] }).filter
      (strStarts nestedMarker)
      = [nestedCountLine ((workflowsOf
          { workflows := some
              [{ id := "w1", name := "W1",
                 nestedWorkflows := some [⟨"w2", "SubFlow", "s1"⟩] }] }).filter
        (fun w => !(nestedOf w).isEmpty)).length] :=
  spec_C4 _ (by decide)
    ⟨{ id := "w1", name := "W1",
       nestedWorkflows := some [⟨"w2", "SubFlow", "s1"⟩] }, by decide, by decide⟩

/-- C9 (counterexample): when two workflows share the id `"w"` and both have
non-empty `nestedWorkflows`, the second `Map.set` overwrites the first, so
the index does not map the first workflow's id to that workflow's own
nested names. -/
theorem spec_C9_counterexample :
    ({ id := "w", name := "A",
       nestedWorkflows := some [⟨"w2", "X", "s1"⟩] } : Workflow) ∈ workflowsOf
      { workflows := some
          [{ id := "w", name := "A", nestedWorkflows := some [⟨"w2", "X", "s1"⟩] },
           { id := "w", name := "B",
             nestedWorkflows := some [⟨"w3", "Y", "s1"⟩, ⟨"w4", "Z", "s2"⟩] }] }
    ∧ nestedOf { id := "w", name := "A",
                 nestedWorkflows := some [⟨"w2", "X", "s1"⟩] } ≠ []
    ∧ mapGet (nestedIdx
        { workflows := some
            [{ id := "w", name := "A", nestedWorkflows := some [⟨"w2", "X", "s1"⟩] },
             { id := "w", name := "B",
               nestedWorkflows := some [⟨"w3", "Y", "s1"⟩, ⟨"w4", "Z", "s2"⟩] }] })
        "w"
      ≠ some ((nestedOf { id := "w", name := "A",
                          nestedWorkflows := some [⟨"w2", "X", "s1"⟩] }).map
          NestedRef.workflowName) := by
  refine ⟨by decide, by decide, by decide⟩

/-- C9 (amended): provided workflow ids are pairwise distinct (the spec's
stated id-uniqueness assumption), every workflow with a non-empty
`nestedWorkflows` list is mapped by the nested-workflow index to the
sequence of its nested entries' `workflowName` values in nested-call order,
and each nested entry contributes the key `workflow:<workflowName>` to that
workflow's dependency set. -/
theorem spec_C9 {e : ProjectExport} {w : Workflow}
    (hn : ((workflowsOf e).map Workflow.id).Nodup) (hw : w ∈ workflowsOf e)
    (hne : nestedOf w ≠ []) :
    mapGet (nestedIdx e) w.id = some ((nestedOf w).map NestedRef.workflowName)
    ∧ ∀ nw ∈ nestedOf w, ("workflow:" ++ nw.workflowName) ∈ workflowDeps w := by
  constructor
  · exact nestedIdx_fold_get hn hw hne []
  · intro nw hnw
    unfold workflowDeps
    exact foldl_estab (P := fun l => ("workflow:" ++ nw.workflowName) ∈ l)
      hnw (fun b => mem_addDep_self b _) (fun b x hb => mem_addDep_of_mem hb _) _

/-- C9 (witness): the spec's own example — workflow `"w1"` with
`nestedWorkflows = [{workflowId: "w2", workflowName: "SubFlow", stepId: "s1"}]`
yields `nestedWorkflowIndex["w1"] = ["SubFlow"]` and the dependency key
`"workflow:SubFlow"`. -/
theorem spec_C9_witness :
    mapGet (nestedIdx
        { workflows := some
            [{ id := "w1", name := "W1",
               nestedWorkflows := some [⟨"w2", "SubFlow", "s1"⟩] }] })
        "w1"
      = some ["SubFlow"]
    ∧ ("workflow:" ++ "SubFlow") ∈ workflowDeps
        { id := "w1", name := "W1",
          nestedWorkflows := some [⟨"w2", "SubFlow", "s1"⟩] } := by
  have h := @spec_C9
    { workflows := some
        [{ id := "w1", name := "W1",
           nestedWorkflows := some [⟨"w2", "SubFlow", "s1"⟩] }] }
    { id := "w1", name := "W1",
      nestedWorkflows := some [⟨"w2", "SubFlow", "s1"⟩] }
    (by decide) (by decide) (by decide)
  exact ⟨h.1, h.2 ⟨"w2", "SubFlow", "s1"⟩ (by decide)⟩

/-- C10: the output of the tool handler does not depend on the `token` or
`region` arguments — for a fixed invocation timestamp and export document,
any two token values and any two region values produce the same result. -/
theorem spec_C10 (now : String) (t₁ t₂ : String) (r₁ r₂ : Option Region)
    (e : ProjectExport) :
    analyzeWorkflowDependencies now t₁ r₁ e
      = analyzeWorkflowDependencies now t₂ r₂ e := rfl

end TrayMCP
